import Mathlib

/-!
Shallow embedding of `fasta2genes.py` (gene extraction from fasta alignment
files).  Python strings are modelled as `List Char`, Python `int` as `Int`.
Each definition mirrors the corresponding Python function or statement.
-/

set_option autoImplicit false

namespace Fasta2Genes

/-- `GeneInfo = namedtuple('GeneInfo', 'name start end')` — a gene's name and
its 1-based inclusive start/end positions from the index file. -/
structure GeneInfo where
  name : List Char
  start : Int
  end_ : Int
  deriving DecidableEq, Repr

/-- `SpeciesInfo = namedtuple('SpeciesInfo', 'name, sequence')` — a species'
name and its full (or extracted) sequence. -/
structure SpeciesInfo where
  name : List Char
  sequence : List Char
  deriving DecidableEq, Repr

/-- Python slice `s[a:b]` for `Int` bounds: a negative bound is offset by the
length and clamped at `0`; a bound past the end is clamped at the length;
an empty slice results when the normalized start is not below the stop. -/
def pySlice (s : List Char) (a b : Int) : List Char :=
  let n : Int := s.length
  let norm : Int → Nat := fun i => if i < 0 then (max (i + n) 0).toNat else min i.toNat s.length
  (s.take (norm b)).drop (norm a)

/-- Python `s.replace(a, b)` for single characters. -/
def pyReplace (s : List Char) (a b : Char) : List Char :=
  s.map (fun c => if c = a then b else c)

/-- Python `s.lstrip(c)` for a single strip character. -/
def pyLstrip (s : List Char) (c : Char) : List Char :=
  s.dropWhile (fun x => x = c)

/-- Python `s.rstrip(c)` for a single strip character. -/
def pyRstrip (s : List Char) (c : Char) : List Char :=
  (s.reverse.dropWhile (fun x => x = c)).reverse

/-- Python `'X' * k` for an `Int` count (negative counts give the empty
string). -/
def pyRepeatX (k : Int) : List Char :=
  List.replicate k.toNat 'X'

/-- Python `s.startswith(c)` for a single character. -/
def pyStartsWith (s : List Char) (c : Char) : Bool :=
  match s with
  | [] => false
  | a :: _ => a = c

/-- `isValidGene(gene)`: if the sequence starts with `'X'` and every character
is `'X'`, the gene is invalid; otherwise it is valid. -/
def isValidGene (gene : SpeciesInfo) : Bool :=
  if pyStartsWith gene.sequence 'X' then
    if gene.sequence.count 'X' = gene.sequence.length then false
    else true
  else true

/-- `extractGene(species, gidx)`: slice `species.sequence[start-1:end]`,
replace every `'?'` by `'X'`, strip leading `'-'`s and left-pad with `'X'`
back to the gene length, then strip trailing `'-'`s and right-pad with `'X'`
back to the gene length. -/
def extractGene (species : SpeciesInfo) (gidx : GeneInfo) : SpeciesInfo :=
  let seq := pySlice species.sequence (gidx.start - 1) gidx.end_
  let genelen : Int := gidx.end_ - gidx.start + 1
  let seq := pyReplace seq '?' 'X'
  let seq := pyLstrip seq '-'
  let endseq := pyRepeatX (genelen - seq.length)
  let seq := endseq ++ seq
  let seq := pyRstrip seq '-'
  let endseq := pyRepeatX (genelen - seq.length)
  let seq := seq ++ endseq
  ⟨species.name, seq⟩

/-!  The aggregation performed by `addSpeciesToGeneArray` / `processFastaFile`.
The Python `dict` keyed by gene name is modelled as an association list with
at most one entry per key: `dictSet` is `d[k] = v` (replace in place or append
a new entry), `dictAppendAt` is `d[k].append(x)` on the first entry with the
given key. -/

/-- Python `gene_species[g.name] = []`-style dict assignment. -/
def dictSet : List (List Char × List SpeciesInfo) → List Char → List SpeciesInfo →
    List (List Char × List SpeciesInfo)
  | [], k, v => [(k, v)]
  | (k2, v2) :: rest, k, v =>
    if k2 = k then (k, v) :: rest else (k2, v2) :: dictSet rest k v

/-- Python `genelist[g.name].append(gene)`: mutate the list stored at the
(first, and in a dict only) entry with the given key. -/
def dictAppendAt : List (List Char × List SpeciesInfo) → List Char → SpeciesInfo →
    List (List Char × List SpeciesInfo)
  | [], _, _ => []
  | (k2, v2) :: rest, k, x =>
    if k2 = k then (k2, v2 ++ [x]) :: rest else (k2, v2) :: dictAppendAt rest k x

/-- The loop in `processFastaFile` that initializes `gene_species`:
`for g in gene_indexes: gene_species[g.name] = []`. -/
def initGeneDict (gene_indexes : List GeneInfo) : List (List Char × List SpeciesInfo) :=
  gene_indexes.foldl (fun d g => dictSet d g.name []) []

/-- `addSpeciesToGeneArray(species, gene_indexes, genelist)`: for each gene
range, extract the gene from the species and, if valid, append it to that
gene's array. -/
def addSpeciesToGeneArray (species : SpeciesInfo) (gene_indexes : List GeneInfo)
    (genelist : List (List Char × List SpeciesInfo)) :
    List (List Char × List SpeciesInfo) :=
  gene_indexes.foldl
    (fun d g =>
      let gene := extractGene species g
      if isValidGene gene then dictAppendAt d g.name gene else d)
    genelist

/-- The aggregation core of `processFastaFile`: initialize an empty group per
gene name, then process each species of the (already read) species list in
order with `addSpeciesToGeneArray`.  File reading and writing are omitted. -/
def aggregateGenes (species_list : List SpeciesInfo) (gene_indexes : List GeneInfo) :
    List (List Char × List SpeciesInfo) :=
  species_list.foldl
    (fun d species => addSpeciesToGeneArray species gene_indexes d)
    (initGeneDict gene_indexes)

/-!  `readGeneIndexes`: parsing of the gene index file.  A Python line
`fields = line.split(); fields[1]; int(fields[3]); int(fields[5])` raises
`IndexError` on a missing field and `ValueError` on a non-numeric coordinate;
both are uncaught, so the first bad line aborts the whole run.  The reader is
modelled on the list of input lines. -/

/-- Python whitespace (the characters `str.split()` splits on). -/
def isPySpace (c : Char) : Bool :=
  decide (c = ' ') || decide (c = '\t') || decide (c = '\n') ||
  decide (c = '\x0d') || decide (c = '\x0b') || decide (c = '\x0c')

/-- Python `line.split()`: split on runs of whitespace, discarding empty
pieces. -/
def pySplit (s : List Char) : List (List Char) :=
  let step : Char → List Char × List (List Char) → List Char × List (List Char) :=
    fun c p =>
      if isPySpace c then
        if p.1 = [] then p else ([], p.1 :: p.2)
      else (c :: p.1, p.2)
  let p := s.foldr step ([], [])
  if p.1 = [] then p.2 else p.1 :: p.2

/-- Python `s.strip()` (whitespace on both ends), as done by `int()`. -/
def pyStripSpaces (s : List Char) : List Char :=
  ((s.dropWhile isPySpace).reverse.dropWhile isPySpace).reverse

/-- Decimal digit-string value, or `none` if the string is empty or contains
a non-digit. -/
def pyDigits? (s : List Char) : Option Nat :=
  if s.isEmpty then none
  else if s.all Char.isDigit then
    some (s.foldl (fun acc c => acc * 10 + (c.toNat - '0'.toNat)) 0)
  else none

/-- Python 2 `int(s)` (base 10): optional surrounding whitespace, optional
sign, then at least one digit; anything else raises `ValueError` (`none`). -/
def pyInt? (s : List Char) : Option Int :=
  match pyStripSpaces s with
  | '+' :: ds => (pyDigits? ds).map (fun v => (v : Int))
  | '-' :: ds => (pyDigits? ds).map (fun v => -(v : Int))
  | ds => (pyDigits? ds).map (fun v => (v : Int))

/-- The uncaught Python exceptions that can abort `readGeneIndexes`:
`IndexError` from `fields[i]` and `ValueError` from `int(...)`. -/
inductive ParseError where
  | indexError
  | valueError
  deriving DecidableEq, Repr

/-- One iteration of the `readGeneIndexes` loop body on a raw input line:
`line.rstrip('\n')`, `fields = line.split()`, `gname = fields[1]`,
`gstart = int(fields[3])`, `gend = int(fields[5])`. -/
def parseIndexLine (line : List Char) : Except ParseError GeneInfo :=
  let fields := pySplit (pyRstrip line '\n')
  match fields[1]? with
  | none => .error .indexError
  | some gname =>
    match fields[3]? with
    | none => .error .indexError
    | some f3 =>
      match pyInt? f3 with
      | none => .error .valueError
      | some gstart =>
        match fields[5]? with
        | none => .error .indexError
        | some f5 =>
          match pyInt? f5 with
          | none => .error .valueError
          | some gend => .ok ⟨gname, gstart, gend⟩

/-- `readGeneIndexes`: parse each line in order into a `GeneInfo`; the first
uncaught exception aborts the run with no gene list returned. -/
def readGeneIndexes : List (List Char) → Except ParseError (List GeneInfo)
  | [] => .ok []
  | line :: rest => do
    let g ← parseIndexLine line
    let gs ← readGeneIndexes rest
    pure (g :: gs)

/-- Decidable equality for `Except`, for concrete evaluation of parse
results. -/
instance {e a : Type} [DecidableEq e] [DecidableEq a] : DecidableEq (Except e a) :=
  fun x y =>
    match x, y with
    | .ok u, .ok v =>
      if h : u = v then isTrue (by rw [h])
      else isFalse (fun hc => by cases hc; exact h rfl)
    | .error u, .error v =>
      if h : u = v then isTrue (by rw [h])
      else isFalse (fun hc => by cases hc; exact h rfl)
    | .ok _, .error _ => isFalse (fun hc => by cases hc)
    | .error _, .ok _ => isFalse (fun hc => by cases hc)

/-!  Proof scaffolding: named pieces of the `extractGene` pipeline. -/

/-- Length of the leading run of `'-'` characters. -/
def leadLen (q : List Char) : Nat :=
  (q.takeWhile (fun c => c = '-')).length

/-- Length of the trailing run of `'-'` characters. -/
def trailLen (q : List Char) : Nat :=
  (q.reverse.takeWhile (fun c => c = '-')).length

/-- The part of `q` strictly between its leading and trailing `'-'` runs. -/
def midOf (q : List Char) : List Char :=
  (q.drop (leadLen q)).take (q.length - leadLen q - trailLen q)

/-- The character-cleanup pipeline of `extractGene` after the `'?'`
replacement: lstrip `'-'`, left-pad with `'X'` to `genelen`, rstrip `'-'`,
right-pad with `'X'` to `genelen`. -/
def cleanPipeline (genelen : Int) (q : List Char) : List Char :=
  let seq := pyLstrip q '-'
  let seq := pyRepeatX (genelen - seq.length) ++ seq
  let seq := pyRstrip seq '-'
  seq ++ pyRepeatX (genelen - seq.length)

/-!  Spec-side definitions, for comparison with the code. -/

/-- Modelled from the spec's description of the cleanup ("converts only the
leading and trailing runs of `-` and every `?` to `X`, leaves every internal
`-` and every other character unchanged in place"): the leading `-` run and
the trailing `-` run of the window become `X`, and the middle keeps every
character, with `?` replaced by `X`. -/
def specEdgeNormalize (w : List Char) : List Char :=
  List.replicate (leadLen w) 'X'
    ++ ((pyReplace w '?' 'X').drop (leadLen w)).take (w.length - leadLen w - trailLen w)
    ++ List.replicate (trailLen w) 'X'

/-- One species' contribution to the group of gene name `n`: the valid
`extractGene` results of the gene ranges carrying that name, in index order. -/
def speciesGeneContrib (s : SpeciesInfo) (gene_indexes : List GeneInfo)
    (n : List Char) : List SpeciesInfo :=
  (gene_indexes.filter (fun g => g.name = n)).filterMap (fun g =>
    let e := extractGene s g
    if isValidGene e then some e else none)

/-- Modelled from the spec's description of aggregation: the group of a gene
name is, species by species in input order, every `extractGene` result for a
gene range with that name that `isValidGene` judges valid. -/
def specGeneGroup (species_list : List SpeciesInfo) (gene_indexes : List GeneInfo)
    (n : List Char) : List SpeciesInfo :=
  species_list.flatMap (fun s => speciesGeneContrib s gene_indexes n)

/-!  Helper lemmas about the string primitives. -/

lemma length_dropWhile_le (p : Char → Bool) (l : List Char) :
    (l.dropWhile p).length ≤ l.length := by
  conv_rhs => rw [← List.takeWhile_append_dropWhile p l]
  rw [List.length_append]
  omega

lemma takeWhile_eq_replicate (c : Char) (q : List Char) :
    q.takeWhile (fun x => x = c) =
      List.replicate (q.takeWhile (fun x => x = c)).length c := by
  rw [List.eq_replicate_iff]
  exact ⟨rfl, fun b hb => by simpa using List.mem_takeWhile_imp hb⟩

lemma lstrip_decomp (q : List Char) :
    q = List.replicate (leadLen q) '-' ++ pyLstrip q '-' := by
  conv_lhs => rw [← List.takeWhile_append_dropWhile (fun x => x = '-') q]
  rw [leadLen, ← takeWhile_eq_replicate]
  rfl

lemma length_lstrip (q : List Char) :
    (pyLstrip q '-').length = q.length - leadLen q := by
  have h := congrArg List.length (lstrip_decomp q)
  rw [List.length_append, List.length_replicate] at h
  omega

lemma leadLen_le (q : List Char) : leadLen q ≤ q.length := by
  have h := congrArg List.length (lstrip_decomp q)
  rw [List.length_append, List.length_replicate] at h
  omega

lemma rstrip_decomp (q : List Char) :
    q = pyRstrip q '-' ++ List.replicate (trailLen q) '-' := by
  have h := lstrip_decomp q.reverse
  have h2 := congrArg List.reverse h
  rw [List.reverse_reverse, List.reverse_append, List.reverse_replicate] at h2
  exact h2

lemma length_rstrip (q : List Char) :
    (pyRstrip q '-').length = q.length - trailLen q := by
  have h := congrArg List.length (rstrip_decomp q)
  rw [List.length_append, List.length_replicate] at h
  omega

lemma trailLen_le (q : List Char) : trailLen q ≤ q.length := by
  have h := congrArg List.length (rstrip_decomp q)
  rw [List.length_append, List.length_replicate] at h
  omega

lemma head?_lstrip_ne (c x : Char) (q : List Char)
    (h : (pyLstrip q c).head? = some x) : x ≠ c := by
  have h2 := List.head?_dropWhile_not (fun y => y = c) q
  rw [pyLstrip] at h
  rw [h] at h2
  simpa using h2

lemma getLast?_rstrip_ne (c x : Char) (q : List Char)
    (h : (pyRstrip q c).getLast? = some x) : x ≠ c := by
  rw [pyRstrip, List.getLast?_reverse] at h
  exact head?_lstrip_ne c x q.reverse h

lemma lstrip_eq_self (c : Char) (q : List Char)
    (h : ∀ x, q.head? = some x → x ≠ c) : pyLstrip q c = q := by
  cases q with
  | nil => rfl
  | cons a t =>
    have ha : a ≠ c := h a rfl
    simp [pyLstrip, List.dropWhile_cons, ha]

lemma rstrip_eq_self (c : Char) (q : List Char)
    (h : ∀ x, q.getLast? = some x → x ≠ c) : pyRstrip q c = q := by
  have h2 : pyLstrip q.reverse c = q.reverse := by
    apply lstrip_eq_self
    intro x hx
    rw [List.head?_reverse] at hx
    exact h x hx
  rw [pyLstrip] at h2
  rw [pyRstrip, h2, List.reverse_reverse]

lemma lstrip_eq_nil_iff (q : List Char) :
    pyLstrip q '-' = [] ↔ ∀ x ∈ q, x = '-' := by
  rw [pyLstrip, List.dropWhile_eq_nil_iff]
  simp

lemma rstrip_append (xs ys : List Char) (h : ∃ c ∈ ys, c ≠ '-') :
    pyRstrip (xs ++ ys) '-' = xs ++ pyRstrip ys '-' := by
  obtain ⟨c, hc, hcne⟩ := h
  rw [pyRstrip, List.reverse_append, List.dropWhile_append]
  have hne : ¬ (ys.reverse.dropWhile (fun x => x = '-')).isEmpty = true := by
    rw [List.isEmpty_iff, List.dropWhile_eq_nil_iff]
    intro hall
    exact hcne (by simpa using hall c (List.mem_reverse.2 hc))
  rw [if_neg hne, List.reverse_append, List.reverse_reverse]
  rfl

lemma length_pyReplace (s : List Char) (a b : Char) :
    (pyReplace s a b).length = s.length := by
  simp [pyReplace]

lemma mem_pyReplace_of (s : List Char) (a b x : Char) (h : x ∈ s) (hx : x ≠ a) :
    x ∈ pyReplace s a b := by
  rw [pyReplace, List.mem_map]
  exact ⟨x, h, by simp [hx]⟩

lemma not_mem_pyReplace (s : List Char) (a b : Char) (hba : b ≠ a) :
    a ∉ pyReplace s a b := by
  rw [pyReplace, List.mem_map]
  rintro ⟨y, -, hy⟩
  by_cases hya : y = a
  · rw [if_pos hya] at hy
    exact hba hy
  · rw [if_neg hya] at hy
    exact hya hy

lemma pyReplace_eq_self (s : List Char) (a b : Char) (h : a ∉ s) :
    pyReplace s a b = s := by
  rw [pyReplace]
  conv_rhs => rw [← List.map_id s]
  apply List.map_congr_left
  intro x hx
  have : x ≠ a := fun hxa => h (hxa ▸ hx)
  simp [this]

lemma length_pyRepeatX (k : Int) : (pyRepeatX k).length = k.toNat := by
  simp [pyRepeatX]

lemma length_pyRstrip_le (s : List Char) (c : Char) :
    (pyRstrip s c).length ≤ s.length := by
  rw [pyRstrip, List.length_reverse]
  have h := length_dropWhile_le (fun x => x = c) s.reverse
  rwa [List.length_reverse] at h

/-!  Slice lemmas. -/

lemma pySlice_length (s : List Char) (a b : Int) (ha : 0 ≤ a) (hb : 0 ≤ b) :
    (pySlice s a b).length = min b.toNat s.length - min a.toNat s.length := by
  rw [pySlice]
  simp only [not_lt.2 ha, not_lt.2 hb, if_false, List.length_drop, List.length_take]
  omega

lemma pySlice_full (s : List Char) (a b : Int) (ha : 0 ≤ a) (hab : a ≤ b)
    (hb : b ≤ (s.length : Int)) :
    pySlice s a b = (s.drop a.toNat).take (b - a).toNat := by
  rw [pySlice]
  simp only [not_lt.2 ha, not_lt.2 (le_trans ha hab), if_false]
  have h1 : min a.toNat s.length = a.toNat := by omega
  have h2 : min b.toNat s.length = b.toNat := by omega
  rw [h1, h2, List.drop_take]
  congr 1
  omega

lemma pySlice_clip (s : List Char) (a b : Int) (ha : 0 ≤ a)
    (hb : (s.length : Int) ≤ b) :
    pySlice s a b = s.drop a.toNat := by
  rw [pySlice]
  simp only [not_lt.2 ha, not_lt.2 (le_trans (Int.ofNat_nonneg s.length) hb), if_false]
  have h2 : min b.toNat s.length = s.length := by omega
  rw [h2, List.take_length]
  rcases le_total a.toNat s.length with h | h
  · rw [min_eq_left h]
  · rw [min_eq_right h, List.drop_length, List.drop_eq_nil_of_le h]

/-!  The `extractGene` pipeline. -/

lemma extractGene_eq (species : SpeciesInfo) (gidx : GeneInfo) :
    extractGene species gidx =
      ⟨species.name,
       cleanPipeline (gidx.end_ - gidx.start + 1)
         (pyReplace (pySlice species.sequence (gidx.start - 1) gidx.end_) '?' 'X')⟩ :=
  rfl

lemma length_cleanPipeline (genelen : Int) (q : List Char)
    (h : (q.length : Int) ≤ genelen) :
    (cleanPipeline genelen q).length = genelen.toNat := by
  rw [cleanPipeline]
  have h2 : (pyLstrip q '-').length ≤ q.length := length_dropWhile_le _ q
  have h3 := length_pyRstrip_le
    (pyRepeatX (genelen - (pyLstrip q '-').length) ++ pyLstrip q '-') '-'
  simp only [List.length_append, length_pyRepeatX] at h3 ⊢
  omega

/-- Central decomposition: on a window `q` holding at least one non-`'-'`
character, the cleanup pipeline (at `genelen = q.length`) turns exactly the
leading and trailing `'-'` runs into `'X'` and keeps the middle in place. -/
lemma cleanPipeline_decomp (q : List Char) (hq : ∃ c ∈ q, c ≠ '-') :
    q = List.replicate (leadLen q) '-' ++ midOf q ++ List.replicate (trailLen q) '-' ∧
    cleanPipeline (q.length : Int) q =
      List.replicate (leadLen q) 'X' ++ midOf q ++ List.replicate (trailLen q) 'X' := by
  have hd := lstrip_decomp q
  have hs2len := length_lstrip q
  have hlead := leadLen_le q
  have hs2ne : pyLstrip q '-' ≠ [] := by
    intro hnil
    obtain ⟨c, hc, hcne⟩ := hq
    exact hcne ((lstrip_eq_nil_iff q).1 hnil c hc)
  have hhead : (pyLstrip q '-').head? = some ((pyLstrip q '-').head hs2ne) :=
    List.head?_eq_head hs2ne
  have hheadne : (pyLstrip q '-').head hs2ne ≠ '-' := head?_lstrip_ne '-' _ q hhead
  have hheadmem : (pyLstrip q '-').head hs2ne ∈ pyLstrip q '-' := List.head_mem hs2ne
  -- the trailing '-' run of q is that of its lstripped part
  have htr : trailLen q = trailLen (pyLstrip q '-') := by
    rw [trailLen]
    conv_lhs => rw [hd]
    rw [List.reverse_append, List.reverse_replicate, List.takeWhile_append]
    have hne : ¬ (((pyLstrip q '-').reverse.takeWhile (fun x => x = '-')).length
        = (pyLstrip q '-').reverse.length) := by
      intro hlen
      have hsum := congrArg List.length
        (List.takeWhile_append_dropWhile (fun x => x = '-') (pyLstrip q '-').reverse)
      rw [List.length_append] at hsum
      have hnil : (pyLstrip q '-').reverse.dropWhile (fun x => x = '-') = [] :=
        List.eq_nil_of_length_eq_zero (by omega)
      rw [List.dropWhile_eq_nil_iff] at hnil
      exact hheadne (by simpa using hnil _ (List.mem_reverse.2 hheadmem))
    rw [if_neg hne]
    rfl
  have hrd := rstrip_decomp (pyLstrip q '-')
  have hrs2len := length_rstrip (pyLstrip q '-')
  have htrail := trailLen_le (pyLstrip q '-')
  -- the middle part is the rstripped lstripped window
  have hqdrop : q.drop (leadLen q) = pyLstrip q '-' := by
    nth_rewrite 2 [hd]
    have h := List.drop_left (List.replicate (leadLen q) '-') (pyLstrip q '-')
    rwa [List.length_replicate] at h
  have hmid : midOf q = pyRstrip (pyLstrip q '-') '-' := by
    rw [midOf, hqdrop, htr]
    have hlen2 : q.length - leadLen q - trailLen (pyLstrip q '-')
        = (pyRstrip (pyLstrip q '-') '-').length := by omega
    rw [hlen2]
    nth_rewrite 2 [hrd]
    exact List.take_left (pyRstrip (pyLstrip q '-') '-')
      (List.replicate (trailLen (pyLstrip q '-')) '-')
  constructor
  · rw [hmid, htr, List.append_assoc, ← hrd]
    exact hd
  · rw [cleanPipeline]
    have hpad1 : pyRepeatX ((q.length : Int) - (pyLstrip q '-').length)
        = List.replicate (leadLen q) 'X' := by
      rw [pyRepeatX]
      congr 1
      omega
    rw [hpad1]
    have hstep : pyRstrip (List.replicate (leadLen q) 'X' ++ pyLstrip q '-') '-'
        = List.replicate (leadLen q) 'X' ++ pyRstrip (pyLstrip q '-') '-' := by
      apply rstrip_append
      exact ⟨_, hheadmem, hheadne⟩
    rw [hstep]
    have hpad2 : pyRepeatX ((q.length : Int)
        - (List.replicate (leadLen q) 'X' ++ pyRstrip (pyLstrip q '-') '-').length)
        = List.replicate (trailLen q) 'X' := by
      rw [pyRepeatX, List.length_append, List.length_replicate]
      congr 1
      rw [htr]
      omega
    rw [hpad2, hmid, List.append_assoc]

lemma mem_pyLstrip (s : List Char) (c x : Char) (h : x ∈ pyLstrip s c) : x ∈ s :=
  (List.dropWhile_sublist _).mem h

lemma mem_pyRstrip (s : List Char) (c x : Char) (h : x ∈ pyRstrip s c) : x ∈ s := by
  rw [pyRstrip, List.mem_reverse] at h
  exact List.mem_reverse.1 ((List.dropWhile_sublist _).mem h)

lemma getLast?_replicate_succ (n : Nat) (c : Char) :
    (List.replicate (n + 1) c).getLast? = some c := by
  rw [← List.reverse_replicate, List.getLast?_reverse, List.replicate_succ]
  rfl

/-- The length invariant of `extractGene`: for `1 ≤ start ≤ end` the result
has length exactly `end - start + 1`, whatever the source sequence. -/
lemma extractGene_length_aux (species : SpeciesInfo) (g : GeneInfo)
    (h1 : 1 ≤ g.start) (h2 : g.start ≤ g.end_) :
    (extractGene species g).sequence.length = (g.end_ - g.start + 1).toNat := by
  rw [extractGene_eq]
  apply length_cleanPipeline
  rw [length_pyReplace,
    pySlice_length species.sequence (g.start - 1) g.end_ (by omega) (by omega)]
  omega

/-- Cleanliness of the `extractGene` output: no `'?'` survives and neither
end is a `'-'`. -/
lemma extractGene_clean_aux (species : SpeciesInfo) (g : GeneInfo)
    (h1 : 1 ≤ g.start) (h2 : g.start ≤ g.end_) :
    '?' ∉ (extractGene species g).sequence ∧
    (extractGene species g).sequence.head? ≠ some '-' ∧
    (extractGene species g).sequence.getLast? ≠ some '-' := by
  rw [extractGene_eq]
  set L : Int := g.end_ - g.start + 1 with hL
  set q : List Char := pyReplace (pySlice species.sequence (g.start - 1) g.end_) '?' 'X'
    with hqdef
  have hLpos : 1 ≤ L := by omega
  have hqlen : q.length ≤ L.toNat := by
    rw [hqdef, length_pyReplace,
      pySlice_length species.sequence (g.start - 1) g.end_ (by omega) (by omega)]
    omega
  have hq2 : '?' ∉ q := not_mem_pyReplace _ '?' 'X' (by decide)
  rw [cleanPipeline]
  set s2 : List Char := pyLstrip q '-' with hs2def
  set s3 : List Char := pyRepeatX (L - s2.length) ++ s2 with hs3def
  set s4 : List Char := pyRstrip s3 '-' with hs4def
  have hs2le : s2.length ≤ q.length := length_dropWhile_le _ q
  have hs3len : s3.length = (L - (s2.length : Int)).toNat + s2.length := by
    rw [hs3def, List.length_append, length_pyRepeatX]
  have hs3pos : s3 ≠ [] := by
    apply List.ne_nil_of_length_pos
    omega
  -- the head of s3 is never '-'
  have hhd : ∀ x, s3.head? = some x → x ≠ '-' := by
    intro x hx
    rcases hk : (L - (s2.length : Int)).toNat with _ | n
    · have hpad : pyRepeatX (L - s2.length) = [] := by
        rw [pyRepeatX, hk, List.replicate_zero]
      rw [hs3def, hpad, List.nil_append] at hx
      exact head?_lstrip_ne '-' x q hx
    · have hpad : pyRepeatX (L - s2.length) = 'X' :: List.replicate n 'X' := by
        rw [pyRepeatX, hk, List.replicate_succ]
      rw [hs3def, hpad, List.cons_append, List.head?_cons] at hx
      cases hx
      decide
  have hs4ne : s4 ≠ [] := by
    intro hnil
    have hdec := rstrip_decomp s3
    rw [← hs4def, hnil, List.nil_append] at hdec
    have hlen3 := congrArg List.length hdec
    rw [List.length_replicate] at hlen3
    have hpos : 1 ≤ s3.length := List.length_pos.2 hs3pos
    apply hhd '-' _ rfl
    rcases hk : trailLen s3 with _ | n
    · omega
    · rw [hdec, hk, List.replicate_succ, List.head?_cons]
  have hs4head : s4.head? = s3.head? := by
    have hdec := rstrip_decomp s3
    rw [← hs4def] at hdec
    conv_rhs => rw [hdec]
    rw [List.head?_append_of_ne_nil _ hs4ne]
  refine ⟨?_, ?_, ?_⟩
  · -- no '?' in the result
    intro hmem
    rcases List.mem_append.1 hmem with hmem | hmem
    · rcases List.mem_append.1 (mem_pyRstrip _ '-' '?' hmem) with hmem | hmem
      · have := List.eq_of_mem_replicate hmem
        simp at this
      · exact hq2 (mem_pyLstrip _ '-' '?' hmem)
    · have := List.eq_of_mem_replicate hmem
      simp at this
  · -- first character not '-'
    rw [List.head?_append_of_ne_nil _ hs4ne, hs4head]
    intro hcontr
    exact hhd '-' hcontr rfl
  · -- last character not '-'
    rcases hk : (L - (s4.length : Int)).toNat with _ | n
    · have hpad : pyRepeatX (L - s4.length) = [] := by
        rw [pyRepeatX, hk, List.replicate_zero]
      rw [hpad, List.append_nil]
      intro hcontr
      exact getLast?_rstrip_ne '-' '-' s3 hcontr rfl
    · have hpadne : pyRepeatX (L - s4.length) ≠ [] := by
        rw [pyRepeatX, hk]
        exact List.ne_nil_of_length_pos (by simp)
      rw [List.getLast?_append_of_ne_nil _ hpadne, pyRepeatX, hk,
        getLast?_replicate_succ]
      intro hcontr
      cases hcontr

/-- C1: for every gene range with `1 ≤ start ≤ end` and every species
sequence (however short, including empty), the sequence returned by
`extractGene` has length exactly `end - start + 1`. -/
theorem extractGene_length_spec (species : SpeciesInfo) (g : GeneInfo)
    (h1 : 1 ≤ g.start) (h2 : g.start ≤ g.end_) :
    ((extractGene species g).sequence.length : Int) = g.end_ - g.start + 1 := by
  have h := extractGene_length_aux species g h1 h2
  omega

/-- C1 witness: a range `[1,4]` over the 2-character sequence `"AB"`. -/
theorem extractGene_length_spec_witness :
    (1 : Int) ≤ 1 ∧ (1 : Int) ≤ 4 ∧
    ((extractGene ⟨['s'], ['A', 'B']⟩ ⟨['G'], 1, 4⟩).sequence.length : Int)
      = 4 - 1 + 1 :=
  ⟨by decide, by decide,
   extractGene_length_spec ⟨['s'], ['A', 'B']⟩ ⟨['G'], 1, 4⟩ (by decide) (by decide)⟩

/-- C2: on a non-empty sequence, `isValidGene` answers `false` exactly when
every character is `'X'`; no other criterion enters the verdict. -/
theorem isValidGene_false_iff_allX (gene : SpeciesInfo) (h : gene.sequence ≠ []) :
    isValidGene gene = false ↔ ∀ c ∈ gene.sequence, c = 'X' := by
  obtain ⟨a, t, hat⟩ := List.exists_cons_of_ne_nil h
  rw [isValidGene]
  constructor
  · intro hf
    split at hf
    · split at hf
      · rename_i hcount
        intro c hc
        exact ((List.count_eq_length.1 hcount) c hc).symm
      · cases hf
    · cases hf
  · intro hall
    have hs : pyStartsWith gene.sequence 'X' = true := by
      rw [hat, pyStartsWith]
      exact decide_eq_true (hall a (hat ▸ List.mem_cons_self a t))
    rw [if_pos hs, if_pos (List.count_eq_length.2 (fun b hb => (hall b hb).symm))]

/-- C2 witness: the all-`'X'` two-character sequence is judged invalid. -/
theorem isValidGene_false_iff_allX_witness :
    isValidGene ⟨['s'], ['X', 'X']⟩ = false :=
  (isValidGene_false_iff_allX ⟨['s'], ['X', 'X']⟩ (by decide)).2 (by decide)

/-- C10: the gene with an empty sequence is judged valid, because the
all-`'X'` rejection is gated on the sequence starting with `'X'` and the
empty sequence starts with nothing. -/
theorem isValidGene_empty_valid (name : List Char) :
    isValidGene ⟨name, []⟩ = true := rfl

/-- C9: for `1 ≤ start ≤ end` the extracted sequence contains no `'?'` and
neither its first nor its last character is `'-'`: every surviving `'-'` is
strictly internal. -/
theorem extractGene_no_residue (species : SpeciesInfo) (g : GeneInfo)
    (h1 : 1 ≤ g.start) (h2 : g.start ≤ g.end_) :
    '?' ∉ (extractGene species g).sequence ∧
    (extractGene species g).sequence.head? ≠ some '-' ∧
    (extractGene species g).sequence.getLast? ≠ some '-' :=
  extractGene_clean_aux species g h1 h2

/-- C9 witness: the window `"-A?"` over range `[1,3]`. -/
theorem extractGene_no_residue_witness :
    (1 : Int) ≤ 1 ∧ (1 : Int) ≤ 3 ∧
    ('?' ∉ (extractGene ⟨['s'], ['-', 'A', '?']⟩ ⟨['G'], 1, 3⟩).sequence ∧
     (extractGene ⟨['s'], ['-', 'A', '?']⟩ ⟨['G'], 1, 3⟩).sequence.head? ≠ some '-' ∧
     (extractGene ⟨['s'], ['-', 'A', '?']⟩ ⟨['G'], 1, 3⟩).sequence.getLast? ≠ some '-') :=
  ⟨by decide, by decide,
   extractGene_no_residue ⟨['s'], ['-', 'A', '?']⟩ ⟨['G'], 1, 3⟩ (by decide) (by decide)⟩

/-- C4: `extractGene` is idempotent on its own output: re-extracting the
returned sequence as a pseudo-species over the range `[1, end - start + 1]`
returns it unchanged. -/
theorem extractGene_idem (species : SpeciesInfo) (g : GeneInfo) (gname : List Char)
    (h1 : 1 ≤ g.start) (h2 : g.start ≤ g.end_) :
    extractGene (extractGene species g) ⟨gname, 1, g.end_ - g.start + 1⟩
      = extractGene species g := by
  obtain ⟨hq, hhead, hlast⟩ := extractGene_clean_aux species g h1 h2
  have hlen := extractGene_length_aux species g h1 h2
  set r := (extractGene species g).sequence with hr
  rw [extractGene_eq (extractGene species g) ⟨gname, 1, g.end_ - g.start + 1⟩]
  conv_rhs => rw [show extractGene species g
    = ⟨(extractGene species g).name, r⟩ from rfl]
  have hseq : cleanPipeline (g.end_ - g.start + 1 - 1 + 1)
      (pyReplace (pySlice r (1 - 1) (g.end_ - g.start + 1)) '?' 'X') = r := by
    have hL1 : g.end_ - g.start + 1 - 1 + 1 = g.end_ - g.start + 1 := by ring
    have hslice : pySlice r (1 - 1) (g.end_ - g.start + 1) = r := by
      rw [pySlice_full r (1 - 1) (g.end_ - g.start + 1) (by omega) (by omega) (by omega)]
      rw [show ((1 : Int) - 1).toNat = 0 from rfl, List.drop_zero,
        show (g.end_ - g.start + 1 - (1 - 1)).toNat = r.length by omega,
        List.take_length]
    have hls : pyLstrip r '-' = r := by
      apply lstrip_eq_self
      intro x hx hxc
      rw [hxc] at hx
      exact hhead hx
    have hrs : pyRstrip r '-' = r := by
      apply rstrip_eq_self
      intro x hx hxc
      rw [hxc] at hx
      exact hlast hx
    have hpad : pyRepeatX (g.end_ - g.start + 1 - (r.length : Int)) = [] := by
      rw [pyRepeatX, show (g.end_ - g.start + 1 - (r.length : Int)).toNat = 0 by omega]
      rfl
    rw [hL1, hslice, pyReplace_eq_self r '?' 'X' hq, cleanPipeline, hls, hpad,
      List.nil_append, hrs, hpad, List.append_nil]
  rw [hseq]

/-- C4 witness: the window `"-A?"` over range `[1,3]` cleans to `"XAX"`,
which re-extracts to itself. -/
theorem extractGene_idem_witness :
    (1 : Int) ≤ 1 ∧ (1 : Int) ≤ 3 ∧
    extractGene (extractGene ⟨['s'], ['-', 'A', '?']⟩ ⟨['G'], 1, 3⟩) ⟨['H'], 1, 3 - 1 + 1⟩
      = extractGene ⟨['s'], ['-', 'A', '?']⟩ ⟨['G'], 1, 3⟩ :=
  ⟨by decide, by decide,
   extractGene_idem ⟨['s'], ['-', 'A', '?']⟩ ⟨['G'], 1, 3⟩ ['H'] (by decide) (by decide)⟩

lemma rstrip_replicate_X (k : Nat) :
    pyRstrip (List.replicate k 'X') '-' = List.replicate k 'X' := by
  apply rstrip_eq_self
  intro x hx
  cases k with
  | zero => cases hx
  | succ n =>
    rw [getLast?_replicate_succ] at hx
    cases hx
    decide

lemma cleanPipeline_replicate_X (k : Nat) :
    cleanPipeline (k : Int) (List.replicate k 'X') = List.replicate k 'X' := by
  rw [cleanPipeline, pyLstrip, List.dropWhile_replicate]
  rw [if_neg (by decide)]
  have hpad : pyRepeatX ((k : Int) - (List.replicate k 'X').length) = [] := by
    rw [pyRepeatX, List.length_replicate]
    simp
  rw [hpad, List.nil_append, rstrip_replicate_X, hpad, List.append_nil]

lemma cleanPipeline_replicate_dash (k : Nat) :
    cleanPipeline (k : Int) (List.replicate k '-') = List.replicate k 'X' := by
  rw [cleanPipeline, pyLstrip, List.dropWhile_replicate]
  rw [if_pos (by decide)]
  have hpad : pyRepeatX ((k : Int) - ([] : List Char).length) = List.replicate k 'X' := by
    rw [pyRepeatX, List.length_nil]
    simp
  rw [hpad, List.append_nil, rstrip_replicate_X]
  have hpad2 : pyRepeatX ((k : Int) - (List.replicate k 'X').length) = [] := by
    rw [pyRepeatX, List.length_replicate]
    simp
  rw [hpad2, List.append_nil]

lemma isValidGene_replicate_X (name : List Char) (k : Nat) (hk : 1 ≤ k) :
    isValidGene ⟨name, List.replicate k 'X'⟩ = false := by
  rw [isValidGene]
  cases k with
  | zero => omega
  | succ n =>
    have hs : pyStartsWith (List.replicate (n + 1) 'X') 'X' = true := by
      rw [List.replicate_succ, pyStartsWith]
      decide
    rw [hs, if_pos rfl, if_pos]
    rw [List.count_replicate]
    simp

/-- C6: a window (fully inside the sequence) that is all `'-'` extracts to
all `'X'` and is judged invalid; likewise a window that is all `'?'`. -/
theorem extractGene_uniform_window_invalid (species : SpeciesInfo) (g : GeneInfo)
    (h1 : 1 ≤ g.start) (h2 : g.start ≤ g.end_)
    (h3 : g.end_ ≤ (species.sequence.length : Int)) :
    ((∀ c ∈ pySlice species.sequence (g.start - 1) g.end_, c = '-') →
      (extractGene species g).sequence = List.replicate (g.end_ - g.start + 1).toNat 'X'
      ∧ isValidGene (extractGene species g) = false)
    ∧ ((∀ c ∈ pySlice species.sequence (g.start - 1) g.end_, c = '?') →
      (extractGene species g).sequence = List.replicate (g.end_ - g.start + 1).toNat 'X'
      ∧ isValidGene (extractGene species g) = false) := by
  have hwinlen : (pySlice species.sequence (g.start - 1) g.end_).length
      = (g.end_ - g.start + 1).toNat := by
    rw [pySlice_length species.sequence (g.start - 1) g.end_ (by omega) (by omega)]
    omega
  have hk : 1 ≤ (g.end_ - g.start + 1).toNat := by omega
  have hcast : g.end_ - g.start + 1 = (((g.end_ - g.start + 1).toNat : Nat) : Int) := by
    omega
  constructor
  · intro hall
    have hwin : pySlice species.sequence (g.start - 1) g.end_
        = List.replicate (g.end_ - g.start + 1).toNat '-' :=
      List.eq_replicate_iff.2 ⟨hwinlen, hall⟩
    have hrep : pyReplace (pySlice species.sequence (g.start - 1) g.end_) '?' 'X'
        = pySlice species.sequence (g.start - 1) g.end_ := by
      apply pyReplace_eq_self
      intro hmem
      have := hall _ hmem
      simp at this
    have hseq : (extractGene species g).sequence
        = List.replicate (g.end_ - g.start + 1).toNat 'X' := by
      rw [extractGene_eq, hrep, hwin]
      nth_rewrite 1 [hcast]
      exact cleanPipeline_replicate_dash _
    refine ⟨hseq, ?_⟩
    rw [show extractGene species g
      = ⟨(extractGene species g).name, (extractGene species g).sequence⟩ from rfl, hseq]
    exact isValidGene_replicate_X _ _ hk
  · intro hall
    have hwin : pySlice species.sequence (g.start - 1) g.end_
        = List.replicate (g.end_ - g.start + 1).toNat '?' :=
      List.eq_replicate_iff.2 ⟨hwinlen, hall⟩
    have hrep : pyReplace (pySlice species.sequence (g.start - 1) g.end_) '?' 'X'
        = List.replicate (g.end_ - g.start + 1).toNat 'X' := by
      rw [hwin, pyReplace, List.map_replicate, if_pos rfl]
    have hseq : (extractGene species g).sequence
        = List.replicate (g.end_ - g.start + 1).toNat 'X' := by
      rw [extractGene_eq, hrep]
      nth_rewrite 1 [hcast]
      exact cleanPipeline_replicate_X _
    refine ⟨hseq, ?_⟩
    rw [show extractGene species g
      = ⟨(extractGene species g).name, (extractGene species g).sequence⟩ from rfl, hseq]
    exact isValidGene_replicate_X _ _ hk

/-- C6 witness: the all-`'-'` window `"--"` over range `[1,2]`. -/
theorem extractGene_uniform_window_invalid_witness :
    (1 : Int) ≤ 1 ∧ (1 : Int) ≤ 2 ∧ (2 : Int) ≤ 2 ∧
    ((extractGene ⟨['s'], ['-', '-']⟩ ⟨['G'], 1, 2⟩).sequence
        = List.replicate ((2 : Int) - 1 + 1).toNat 'X'
      ∧ isValidGene (extractGene ⟨['s'], ['-', '-']⟩ ⟨['G'], 1, 2⟩) = false) :=
  ⟨by decide, by decide, by decide,
   (extractGene_uniform_window_invalid ⟨['s'], ['-', '-']⟩ ⟨['G'], 1, 2⟩
     (by decide) (by decide) (by decide)).1 (by decide)⟩

/-- C8: when `end` exceeds the sequence length, the slice is clipped to the
available characters (a shorter-than-range substring, not an error) and the
padding pipeline still returns a full-length result. -/
theorem extractGene_clip_spec (species : SpeciesInfo) (g : GeneInfo)
    (h1 : 1 ≤ g.start) (h2 : g.start ≤ g.end_)
    (hshort : (species.sequence.length : Int) < g.end_) :
    pySlice species.sequence (g.start - 1) g.end_
      = species.sequence.drop (g.start - 1).toNat
    ∧ ((pySlice species.sequence (g.start - 1) g.end_).length : Int)
        < g.end_ - g.start + 1
    ∧ ((extractGene species g).sequence.length : Int) = g.end_ - g.start + 1 := by
  refine ⟨pySlice_clip species.sequence (g.start - 1) g.end_ (by omega) (le_of_lt hshort),
    ?_, ?_⟩
  · rw [pySlice_length species.sequence (g.start - 1) g.end_ (by omega) (by omega)]
    omega
  · have h := extractGene_length_aux species g h1 h2
    omega

/-- C8 witness: range `[1,4]` over the 2-character sequence `"AB"`. -/
theorem extractGene_clip_spec_witness :
    (1 : Int) ≤ 1 ∧ (1 : Int) ≤ 4 ∧ ((2 : Nat) : Int) < 4 ∧
    (pySlice ['A', 'B'] (1 - 1) 4 = List.drop ((1 : Int) - 1).toNat ['A', 'B']
     ∧ ((pySlice ['A', 'B'] (1 - 1) 4).length : Int) < 4 - 1 + 1
     ∧ ((extractGene ⟨['s'], ['A', 'B']⟩ ⟨['G'], 1, 4⟩).sequence.length : Int)
         = 4 - 1 + 1) :=
  ⟨by decide, by decide, by decide,
   extractGene_clip_spec ⟨['s'], ['A', 'B']⟩ ⟨['G'], 1, 4⟩ (by decide) (by decide)
     (by decide)⟩

lemma replace_pred_comp :
    ((fun x => decide (x = '-')) ∘ (fun c => if c = '?' then 'X' else c))
      = (fun c : Char => decide (c = '-')) := by
  funext c
  by_cases hc : c = '?'
  · subst hc
    rfl
  · simp [Function.comp, hc]

lemma leadLen_pyReplace (w : List Char) :
    leadLen (pyReplace w '?' 'X') = leadLen w := by
  rw [leadLen, leadLen, pyReplace, List.takeWhile_map, List.length_map,
    replace_pred_comp]

lemma trailLen_pyReplace (w : List Char) :
    trailLen (pyReplace w '?' 'X') = trailLen w := by
  rw [trailLen, trailLen, pyReplace, ← List.map_reverse, List.takeWhile_map,
    List.length_map, replace_pred_comp]

lemma isValidGene_of_mem_ne (name s : List Char) (c : Char) (hc : c ∈ s)
    (hne : c ≠ 'X') : isValidGene ⟨name, s⟩ = true := by
  rw [isValidGene]
  split
  · split
    · rename_i hcount
      exact (hne ((List.count_eq_length.1 hcount) c hc).symm).elim
    · rfl
  · rfl

/-- On a window with at least one non-gap, non-`'?'` character, the pipeline
agrees with the spec-side edge normalization, and if some such character is
also not `'X'` the result is judged valid. -/
lemma cleanPipeline_spec_normalize (w : List Char)
    (hc : ∃ c ∈ w, c ≠ '-' ∧ c ≠ '?') :
    cleanPipeline (w.length : Int) (pyReplace w '?' 'X') = specEdgeNormalize w ∧
    ((∃ c ∈ w, c ≠ '-' ∧ c ≠ '?' ∧ c ≠ 'X') → ∀ name,
      isValidGene ⟨name, cleanPipeline (w.length : Int) (pyReplace w '?' 'X')⟩
        = true) := by
  have hql : (pyReplace w '?' 'X').length = w.length := length_pyReplace w '?' 'X'
  have hq : ∃ c ∈ pyReplace w '?' 'X', c ≠ '-' := by
    obtain ⟨c, hcw, hcd, hcq⟩ := hc
    exact ⟨c, mem_pyReplace_of w '?' 'X' c hcw hcq, hcd⟩
  obtain ⟨hdec, hpipe⟩ := cleanPipeline_decomp (pyReplace w '?' 'X') hq
  have hmain : cleanPipeline (w.length : Int) (pyReplace w '?' 'X')
      = specEdgeNormalize w := by
    rw [← hql, hpipe, specEdgeNormalize, midOf, leadLen_pyReplace w,
      trailLen_pyReplace w, hql]
  refine ⟨hmain, ?_⟩
  intro hex name
  obtain ⟨c, hcw, hcd, hcq, hcx⟩ := hex
  have hcmem : c ∈ pyReplace w '?' 'X' := mem_pyReplace_of w '?' 'X' c hcw hcq
  have hcmid : c ∈ midOf (pyReplace w '?' 'X') := by
    rw [hdec] at hcmem
    rcases List.mem_append.1 hcmem with h1 | h1
    · rcases List.mem_append.1 h1 with h2 | h2
      · exact absurd (List.eq_of_mem_replicate h2) hcd
      · exact h2
    · exact absurd (List.eq_of_mem_replicate h1) hcd
  rw [← hql, hpipe]
  apply isValidGene_of_mem_ne _ _ c _ hcx
  exact List.mem_append.2 (Or.inl (List.mem_append.2 (Or.inr hcmid)))

/-- C3 counterexample: the window `"X"` lies fully within the sequence and
contains a character that is neither `'-'` nor `'?'` (namely `'X'`), yet the
extracted gene is judged invalid, not valid as the claim states. -/
theorem extractGene_window_valid_counterexample :
    ((1 : Int) ≤ 1 ∧ (1 : Int) ≤ 1 ∧ (1 : Int) ≤ ((['X'] : List Char).length : Int) ∧
     'X' ∈ pySlice ['X'] (1 - 1) 1 ∧ 'X' ≠ '-' ∧ 'X' ≠ '?') ∧
    isValidGene (extractGene ⟨['s'], ['X']⟩ ⟨['G'], 1, 1⟩) = false := by
  decide

/-- C3 amended: for a gene range fully inside the species sequence whose
window holds at least one character that is neither `'-'` nor `'?'`,
`extractGene` converts only the leading and trailing `'-'` runs and every
`'?'` of the window to `'X'`, leaving everything else in place; and when such
a character is moreover not `'X'`, `isValidGene` judges the result valid. -/
theorem extractGene_edge_normalize_amended (species : SpeciesInfo) (g : GeneInfo)
    (h1 : 1 ≤ g.start) (h2 : g.start ≤ g.end_)
    (h3 : g.end_ ≤ (species.sequence.length : Int))
    (hc : ∃ c ∈ pySlice species.sequence (g.start - 1) g.end_, c ≠ '-' ∧ c ≠ '?') :
    (extractGene species g).sequence
      = specEdgeNormalize (pySlice species.sequence (g.start - 1) g.end_)
    ∧ ((∃ c ∈ pySlice species.sequence (g.start - 1) g.end_,
          c ≠ '-' ∧ c ≠ '?' ∧ c ≠ 'X') →
        isValidGene (extractGene species g) = true) := by
  have hwlen : (pySlice species.sequence (g.start - 1) g.end_).length
      = (g.end_ - g.start + 1).toNat := by
    rw [pySlice_length species.sequence (g.start - 1) g.end_ (by omega) (by omega)]
    omega
  have hcast : g.end_ - g.start + 1
      = ((pySlice species.sequence (g.start - 1) g.end_).length : Int) := by
    omega
  obtain ⟨hmain, hvalid⟩ :=
    cleanPipeline_spec_normalize (pySlice species.sequence (g.start - 1) g.end_) hc
  constructor
  · rw [extractGene_eq, hcast]
    exact hmain
  · intro hex
    rw [extractGene_eq, hcast]
    exact hvalid hex species.name

/-- C3 amended witness: the window `"-?A?-"` over range `[1,5]` normalizes to
`"XXAXX"` (per `specEdgeNormalize`) and is judged valid. -/
theorem extractGene_edge_normalize_amended_witness :
    (extractGene ⟨['s'], ['-', '?', 'A', '?', '-']⟩ ⟨['G'], 1, 5⟩).sequence
      = specEdgeNormalize (pySlice ['-', '?', 'A', '?', '-'] (1 - 1) 5)
    ∧ isValidGene (extractGene ⟨['s'], ['-', '?', 'A', '?', '-']⟩ ⟨['G'], 1, 5⟩)
        = true :=
  have h := extractGene_edge_normalize_amended ⟨['s'], ['-', '?', 'A', '?', '-']⟩
    ⟨['G'], 1, 5⟩ (by decide) (by decide) (by decide) (by decide)
  ⟨h.1, h.2 (by decide)⟩

/-!  Dictionary lemmas for the aggregation claim. -/

lemma lookup_entry_eq (k n : List Char) (v : List SpeciesInfo)
    (rest : List (List Char × List SpeciesInfo)) (h : n = k) :
    List.lookup n ((k, v) :: rest) = some v := by
  rw [List.lookup_cons]
  rw [show (n == k) = true from beq_iff_eq.2 h]

lemma lookup_entry_ne (k n : List Char) (v : List SpeciesInfo)
    (rest : List (List Char × List SpeciesInfo)) (h : ¬ n = k) :
    List.lookup n ((k, v) :: rest) = List.lookup n rest := by
  rw [List.lookup_cons]
  rw [show (n == k) = false from beq_eq_false_iff_ne.2 h]

lemma lookup_dictSet (d : List (List Char × List SpeciesInfo)) (k n : List Char)
    (v : List SpeciesInfo) :
    (dictSet d k v).lookup n = if n = k then some v else d.lookup n := by
  induction d with
  | nil =>
    by_cases h : n = k
    · rw [dictSet, lookup_entry_eq k n v [] h, if_pos h]
    · rw [dictSet, lookup_entry_ne k n v [] h, if_neg h]
  | cons e rest ih =>
    obtain ⟨k2, v2⟩ := e
    rw [dictSet]
    by_cases h2 : k2 = k
    · rw [if_pos h2]
      by_cases h : n = k
      · rw [lookup_entry_eq k n v rest h, if_pos h]
      · rw [lookup_entry_ne k n v rest h, if_neg h,
          lookup_entry_ne k2 n v2 rest (fun hc => h (hc.trans h2))]
    · rw [if_neg h2]
      by_cases h : n = k2
      · have hnk : ¬ n = k := fun hc => h2 (h.symm.trans hc)
        rw [lookup_entry_eq k2 n v2 _ h, if_neg hnk, lookup_entry_eq k2 n v2 rest h]
      · rw [lookup_entry_ne k2 n v2 _ h, ih, lookup_entry_ne k2 n v2 rest h]

lemma lookup_dictAppendAt (d : List (List Char × List SpeciesInfo))
    (k n : List Char) (x : SpeciesInfo) :
    (dictAppendAt d k x).lookup n
      = if n = k then (d.lookup n).map (fun v => v ++ [x]) else d.lookup n := by
  induction d with
  | nil =>
    by_cases h : n = k
    · rw [dictAppendAt, if_pos h]
      rfl
    · rw [dictAppendAt, if_neg h]
  | cons e rest ih =>
    obtain ⟨k2, v2⟩ := e
    rw [dictAppendAt]
    by_cases h2 : k2 = k
    · rw [if_pos h2]
      by_cases h : n = k
      · rw [lookup_entry_eq k2 n (v2 ++ [x]) rest (h.trans h2.symm), if_pos h,
          lookup_entry_eq k2 n v2 rest (h.trans h2.symm)]
        rfl
      · have hnk2 : ¬ n = k2 := fun hc => h (hc.trans h2)
        rw [lookup_entry_ne k2 n (v2 ++ [x]) rest hnk2, if_neg h,
          lookup_entry_ne k2 n v2 rest hnk2]
    · rw [if_neg h2]
      by_cases h : n = k2
      · have hnk : ¬ n = k := fun hc => h2 (h.symm.trans hc)
        rw [lookup_entry_eq k2 n v2 _ h, if_neg hnk, lookup_entry_eq k2 n v2 rest h]
      · rw [lookup_entry_ne k2 n v2 _ h, ih, lookup_entry_ne k2 n v2 rest h]

lemma lookup_initFold (gs : List GeneInfo) (d0 : List (List Char × List SpeciesInfo))
    (n : List Char) :
    ((gs.foldl (fun d g => dictSet d g.name []) d0).lookup n)
      = if n ∈ gs.map GeneInfo.name then some [] else d0.lookup n := by
  induction gs generalizing d0 with
  | nil => simp
  | cons g gs ih =>
    rw [List.foldl_cons, ih]
    by_cases hmem : n ∈ gs.map GeneInfo.name
    · simp [hmem]
    · rw [if_neg hmem, lookup_dictSet]
      by_cases hg : n = g.name
      · simp [hg]
      · simp [hg, hmem, fun h : g.name = n => hg h.symm]

lemma speciesGeneContrib_cons (s : SpeciesInfo) (g : GeneInfo)
    (gs : List GeneInfo) (n : List Char) :
    speciesGeneContrib s (g :: gs) n
      = (if g.name = n ∧ isValidGene (extractGene s g) = true
          then [extractGene s g] else [])
        ++ speciesGeneContrib s gs n := by
  by_cases hg : g.name = n
  · by_cases hv : isValidGene (extractGene s g) = true
    · simp [speciesGeneContrib, List.filter_cons, List.filterMap_cons, hg, hv]
    · simp [speciesGeneContrib, List.filter_cons, List.filterMap_cons, hg, hv]
  · simp [speciesGeneContrib, List.filter_cons, hg]

lemma addSpecies_cons (s : SpeciesInfo) (g : GeneInfo) (gs : List GeneInfo)
    (d : List (List Char × List SpeciesInfo)) :
    addSpeciesToGeneArray s (g :: gs) d
      = addSpeciesToGeneArray s gs
          (if isValidGene (extractGene s g)
            then dictAppendAt d g.name (extractGene s g) else d) := rfl

lemma lookup_addSpecies (s : SpeciesInfo) (gs : List GeneInfo) :
    ∀ (d : List (List Char × List SpeciesInfo)) (n : List Char),
    ((addSpeciesToGeneArray s gs d).lookup n)
      = (d.lookup n).map (fun v => v ++ speciesGeneContrib s gs n) := by
  induction gs with
  | nil =>
    intro d n
    rw [show addSpeciesToGeneArray s [] d = d from rfl]
    rcases hd : d.lookup n with _ | v
    · rfl
    · simp [speciesGeneContrib]
  | cons g gs ih =>
    intro d n
    rw [addSpecies_cons, ih, speciesGeneContrib_cons]
    by_cases hv : isValidGene (extractGene s g) = true
    · rw [if_pos hv, lookup_dictAppendAt]
      by_cases hg : g.name = n
      · rw [if_pos hg.symm, Option.map_map]
        have hcond : g.name = n ∧ isValidGene (extractGene s g) = true := ⟨hg, hv⟩
        rw [if_pos hcond]
        simp only [Function.comp_def, List.append_assoc, List.cons_append,
          List.nil_append]
      · have hng : ¬ n = g.name := fun hc => hg hc.symm
        rw [if_neg hng]
        have hcond : ¬ (g.name = n ∧ isValidGene (extractGene s g) = true) :=
          fun hc => hg hc.1
        rw [if_neg hcond]
        simp only [List.nil_append]
    · rw [if_neg hv]
      have hcond : ¬ (g.name = n ∧ isValidGene (extractGene s g) = true) :=
        fun hc => hv hc.2
      rw [if_neg hcond]
      simp only [List.nil_append]

lemma specGeneGroup_cons (s : SpeciesInfo) (sl : List SpeciesInfo)
    (gs : List GeneInfo) (n : List Char) :
    specGeneGroup (s :: sl) gs n
      = speciesGeneContrib s gs n ++ specGeneGroup sl gs n := by
  simp [specGeneGroup]

lemma lookup_aggregateFold (sl : List SpeciesInfo) (gs : List GeneInfo) :
    ∀ (d : List (List Char × List SpeciesInfo)) (n : List Char),
    ((sl.foldl (fun d species => addSpeciesToGeneArray species gs d) d).lookup n)
      = (d.lookup n).map (fun v => v ++ specGeneGroup sl gs n) := by
  induction sl with
  | nil =>
    intro d n
    rw [List.foldl_nil]
    rcases hd : d.lookup n with _ | v
    · rfl
    · simp [specGeneGroup]
  | cons s sl ih =>
    intro d n
    rw [List.foldl_cons, ih, lookup_addSpecies, Option.map_map, specGeneGroup_cons]
    simp only [Function.comp_def, List.append_assoc]

/-- C5: aggregation over an ordered species list and ordered gene ranges
yields a mapping whose keys are exactly the gene names of the index; the
group of each name lists that name's valid `extractGene` results in species
order, and a name with zero valid species maps to the empty group. -/
theorem aggregateGenes_lookup_spec (species_list : List SpeciesInfo)
    (gene_indexes : List GeneInfo) (n : List Char) :
    (aggregateGenes species_list gene_indexes).lookup n
      = if n ∈ gene_indexes.map GeneInfo.name
        then some (specGeneGroup species_list gene_indexes n)
        else none := by
  rw [aggregateGenes, lookup_aggregateFold, initGeneDict, lookup_initFold]
  by_cases hmem : n ∈ gene_indexes.map GeneInfo.name
  · simp [hmem]
  · simp [hmem]

lemma lt_length_of_getElem?_eq_some (l : List (List Char)) (n : Nat) (a : List Char)
    (h : l[n]? = some a) : n < l.length := by
  by_contra hc
  rw [List.getElem?_eq_none_iff.2 (by omega)] at h
  cases h

/-- C7 counterexample: the index line `charset G = 1 - 2` has the wrong token
count (6 tokens instead of the format's 7 — the trailing `;` is missing), yet
`readGeneIndexes` does not abort: it returns a gene list. -/
theorem readGeneIndexes_wrong_token_count_ok :
    (pySplit (pyRstrip "charset G = 1 - 2".toList '\n')).length = 6 ∧
    readGeneIndexes ["charset G = 1 - 2".toList]
      = .ok [⟨['G'], 1, 2⟩] := by
  decide

/-- C7 amended: a line aborts parsing exactly when it has fewer than 6
whitespace tokens (`IndexError`) or its 4th or 6th token does not parse as an
integer (`ValueError`); lines with 6 or more tokens and numeric 4th and 6th
tokens are accepted whatever the total count.  The first failing line aborts
the whole run: no gene list is returned and later lines are not reached. -/
theorem readGeneIndexes_first_error_amended :
    (∀ line : List Char,
      (parseIndexLine line).isOk = true ↔
        (6 ≤ (pySplit (pyRstrip line '\n')).length ∧
         (pyInt? ((pySplit (pyRstrip line '\n')).getD 3 [])).isSome = true ∧
         (pyInt? ((pySplit (pyRstrip line '\n')).getD 5 [])).isSome = true))
    ∧ (∀ (pre : List (List Char)) (line : List Char) (post : List (List Char))
        (e : ParseError),
        parseIndexLine line = .error e →
        (∀ l ∈ pre, (parseIndexLine l).isOk = true) →
        readGeneIndexes (pre ++ line :: post) = .error e) := by
  constructor
  · intro line
    rcases h1 : (pySplit (pyRstrip line '\n'))[1]? with _ | f1
    · have hv : parseIndexLine line = .error .indexError := by
        simp only [parseIndexLine, h1]
      rw [List.getElem?_eq_none_iff] at h1
      rw [hv]
      constructor
      · intro h
        cases h
      · rintro ⟨hlen, -, -⟩
        omega
    · rcases h3 : (pySplit (pyRstrip line '\n'))[3]? with _ | f3
      · have hv : parseIndexLine line = .error .indexError := by
          simp only [parseIndexLine, h1, h3]
        rw [List.getElem?_eq_none_iff] at h3
        rw [hv]
        constructor
        · intro h
          cases h
        · rintro ⟨hlen, -, -⟩
          omega
      · have hd3 : (pySplit (pyRstrip line '\n')).getD 3 [] = f3 := by
          rw [List.getD_eq_getElem?_getD, h3]
          rfl
        rcases hi3 : pyInt? f3 with _ | v3
        · have hv : parseIndexLine line = .error .valueError := by
            simp only [parseIndexLine, h1, h3, hi3]
          rw [hv]
          constructor
          · intro h
            cases h
          · rintro ⟨-, hs3, -⟩
            rw [hd3, hi3] at hs3
            cases hs3
        · rcases h5 : (pySplit (pyRstrip line '\n'))[5]? with _ | f5
          · have hv : parseIndexLine line = .error .indexError := by
              simp only [parseIndexLine, h1, h3, hi3, h5]
            rw [List.getElem?_eq_none_iff] at h5
            rw [hv]
            constructor
            · intro h
              cases h
            · rintro ⟨hlen, -, -⟩
              omega
          · have hd5 : (pySplit (pyRstrip line '\n')).getD 5 [] = f5 := by
              rw [List.getD_eq_getElem?_getD, h5]
              rfl
            have hlen5 := lt_length_of_getElem?_eq_some _ 5 f5 h5
            rcases hi5 : pyInt? f5 with _ | v5
            · have hv : parseIndexLine line = .error .valueError := by
                simp only [parseIndexLine, h1, h3, hi3, h5, hi5]
              rw [hv]
              constructor
              · intro h
                cases h
              · rintro ⟨-, -, hs5⟩
                rw [hd5, hi5] at hs5
                cases hs5
            · have hv : parseIndexLine line = .ok ⟨f1, v3, v5⟩ := by
                simp only [parseIndexLine, h1, h3, hi3, h5, hi5]
              rw [hv]
              constructor
              · intro h
                exact ⟨by omega, by rw [hd3, hi3]; rfl, by rw [hd5, hi5]; rfl⟩
              · intro h
                rfl
  · intro pre
    induction pre with
    | nil =>
      intro line post e hline _
      rw [List.nil_append]
      simp only [readGeneIndexes, hline]
      rfl
    | cons l pre ih =>
      intro line post e hline hpre
      have hok : (parseIndexLine l).isOk = true := hpre l (List.mem_cons_self l pre)
      rcases hpl : parseIndexLine l with e2 | g
      · rw [hpl] at hok
        cases hok
      · rw [List.cons_append]
        simp only [readGeneIndexes, hpl,
          ih line post e hline (fun x hx => hpre x (List.mem_cons_of_mem l hx))]
        rfl

/-- C7 amended witness: a run with one good line, one bad line (too few
tokens) and one further good line aborts with the bad line's `IndexError`. -/
theorem readGeneIndexes_first_error_amended_witness :
    readGeneIndexes ["charset A = 1 - 2 ;".toList, ['b', 'a', 'd'],
      "charset B = 3 - 4 ;".toList] = .error .indexError :=
  readGeneIndexes_first_error_amended.2 ["charset A = 1 - 2 ;".toList]
    ['b', 'a', 'd'] ["charset B = 3 - 4 ;".toList] .indexError
    (by decide) (by decide)

end Fasta2Genes
